import Mathlib

/-!
Verification of the Prism backend's RAG pipeline helpers
(`src/backend/main.py`), shallowly embedded in Lean 4.

Conventions of the embedding:
* Python strings are `List Char`; Python ints are `Int`/`Nat`.
* Fallible operations return `Option`; a request handler's
  `try`/`except` control flow is modelled with `Except`.
* `while` loops are modelled with explicit fuel: `none` means the fuel
  ran out before the loop finished, i.e. the Python loop would still be
  running after that many iterations.
* External collaborators (embedding model, vector index, PDF extractor,
  document store, `json.loads`) enter as function arguments or as
  already-produced values, mirroring the capability boundaries of the
  source.
-/

namespace Prism

/-- Clamp a Python slice index to `[0, len]`: a negative index counts
from the end of the sequence (`i + len`, floored at 0), a nonnegative
one is capped at `len`. -/
def pySliceIndex (i : Int) (len : Nat) : Nat :=
  if i < 0 then (i + len).toNat else min i.toNat len

/-- Python slice `s[a:b]` (step 1) on a `List Char`. -/
def pySlice (s : List Char) (a b : Int) : List Char :=
  (s.take (pySliceIndex b s.length)).drop (pySliceIndex a s.length)

/-- Model of the `while start < text_length` loop of `chunk_text`
(src/backend/main.py:317-325).  Each recursive call is one loop
iteration: it appends `text[start:start+chunk_size]` to the collected
chunks and advances `start` by `chunk_size - overlap` (Python integer
arithmetic, so the step can be zero or negative).  `none` means the
fuel was exhausted before the loop condition became false. -/
def chunkTextLoop (text : List Char) (size overlap : Nat) :
    Nat → Int → List (List Char) → Option (List (List Char))
  | 0, _, _ => none
  | fuel + 1, start, chunks =>
    if start < (text.length : Int) then
      chunkTextLoop text size overlap fuel
        (start + ((size : Int) - (overlap : Int)))
        (chunks ++ [pySlice text start (start + (size : Int))])
    else
      some chunks

/-- Model of `chunk_text(text, chunk_size, overlap)`
(src/backend/main.py:302-327): the loop starts at `start = 0` with no
chunks collected.  The source performs no validation of
`overlap`/`chunk_size` whatsoever before entering the loop. -/
def chunk_text (text : List Char) (size overlap : Nat) (fuel : Nat) :
    Option (List (List Char)) :=
  chunkTextLoop text size overlap fuel 0 []

/-- Proof helper: when the loop is entered with `start` strictly below
the text length and the stride `size - overlap` is nonpositive, it
never finishes, whatever the fuel. -/
theorem chunkTextLoop_stuck (text : List Char) (size overlap : Nat)
    (hov : size ≤ overlap) :
    ∀ (fuel : Nat) (start : Int) (chunks : List (List Char)),
      start < (text.length : Int) →
      chunkTextLoop text size overlap fuel start chunks = none := by
  intro fuel
  induction fuel with
  | zero => intro start chunks _; rfl
  | succ n ih =>
    intro start chunks h
    rw [chunkTextLoop, if_pos h]
    exact ih _ _ (by omega)

/-- Pure description of the chunk sequence emitted from offset `start`
when the stride is positive (proof helper; `stride` stands for
`size - overlap`). -/
def chunksFrom (text : List Char) (size stride : Nat) (start : Nat) :
    List (List Char) :=
  if h : 0 < stride ∧ start < text.length then
    (text.drop start).take size :: chunksFrom text size stride (start + stride)
  else
    []
termination_by text.length - start
decreasing_by omega

/-- Concatenation of a chunk list that accounts for the configured
overlap: the first chunk is kept whole and every later chunk
contributes everything after its first `overlap` characters. -/
def reconstruct (overlap : Nat) : List (List Char) → List Char
  | [] => []
  | c :: rest => c ++ (rest.map (fun d => d.drop overlap)).flatten

theorem pySlice_ofNat (s : List Char) (a size : Nat) :
    pySlice s (a : Int) ((a : Int) + (size : Int)) = (s.drop a).take size := by
  have hcast : (a : Int) + (size : Int) = ((a + size : Nat) : Int) := by push_cast; ring
  rw [pySlice, hcast]
  unfold pySliceIndex
  rw [if_neg (by omega), if_neg (by omega), Int.toNat_natCast, Int.toNat_natCast]
  by_cases hle : a ≤ s.length
  · rw [min_eq_left hle, List.drop_take]
    by_cases hfit : a + size ≤ s.length
    · rw [min_eq_left hfit]
      congr 1
      omega
    · rw [min_eq_right (by omega)]
      rw [List.take_of_length_le (by rw [List.length_drop])]
      rw [List.take_of_length_le (by rw [List.length_drop]; omega)]
  · rw [min_eq_right (show s.length ≤ a by omega)]
    rw [List.drop_eq_nil_of_le (by rw [List.length_take]; exact Nat.min_le_right _ _)]
    rw [List.drop_eq_nil_of_le (by omega), List.take_nil]

theorem chunksFrom_nil (text : List Char) (size stride start : Nat)
    (h : ¬ (0 < stride ∧ start < text.length)) :
    chunksFrom text size stride start = [] := by
  rw [chunksFrom, dif_neg h]

theorem chunksFrom_cons (text : List Char) (size stride start : Nat)
    (h : 0 < stride ∧ start < text.length) :
    chunksFrom text size stride start =
      (text.drop start).take size :: chunksFrom text size stride (start + stride) := by
  rw [chunksFrom, dif_pos h]

/-- Proof helper: the loop, run with enough fuel and a positive stride,
returns exactly the chunks described by `chunksFrom`. -/
theorem chunkTextLoop_eq_chunksFrom (text : List Char) (size overlap : Nat)
    (hov : overlap < size) :
    ∀ (fuel start : Nat) (acc : List (List Char)),
      text.length - start < fuel →
      chunkTextLoop text size overlap fuel (start : Int) acc =
        some (acc ++ chunksFrom text size (size - overlap) start) := by
  intro fuel
  induction fuel with
  | zero => intro start acc h; omega
  | succ n ih =>
    intro start acc h
    by_cases hlt : start < text.length
    · rw [chunkTextLoop, if_pos (by exact_mod_cast hlt)]
      have hstep : (start : Int) + ((size : Int) - (overlap : Int)) =
          ((start + (size - overlap) : Nat) : Int) := by
        push_cast [Nat.cast_sub (le_of_lt hov)]
        ring
      rw [hstep, pySlice_ofNat, ih (start + (size - overlap)) _ (by omega),
        chunksFrom_cons text size (size - overlap) start ⟨by omega, hlt⟩]
      simp
    · rw [chunkTextLoop, if_neg (by exact_mod_cast hlt),
        chunksFrom_nil text size (size - overlap) start (by omega)]
      simp

/-- Proof helper: the `i`-th chunk emitted from offset `start` is the
window of `size` characters beginning at `start + i * stride`. -/
theorem chunksFrom_get (text : List Char) (size stride : Nat) :
    ∀ (i start : Nat) (h : i < (chunksFrom text size stride start).length),
      (chunksFrom text size stride start).get ⟨i, h⟩ =
        (text.drop (start + i * stride)).take size := by
  intro i
  induction i with
  | zero =>
    intro start h
    have hc : 0 < stride ∧ start < text.length := by
      by_contra hc
      rw [chunksFrom_nil text size stride start hc] at h
      simp at h
    rw [List.get_of_eq (chunksFrom_cons text size stride start hc)]
    simp
  | succ j ih =>
    intro start h
    have hc : 0 < stride ∧ start < text.length := by
      by_contra hc
      rw [chunksFrom_nil text size stride start hc] at h
      simp at h
    have h2 : j + 1 < ((text.drop start).take size ::
        chunksFrom text size stride (start + stride)).length := by
      rw [← chunksFrom_cons text size stride start hc]; exact h
    have h3 : j < (chunksFrom text size stride (start + stride)).length := by
      simpa using h2
    calc (chunksFrom text size stride start).get ⟨j + 1, h⟩
        = (chunksFrom text size stride (start + stride)).get ⟨j, h3⟩ := by
          rw [List.get_of_eq (chunksFrom_cons text size stride start hc)]
          rfl
      _ = (text.drop (start + stride + j * stride)).take size := ih (start + stride) h3
      _ = (text.drop (start + (j + 1) * stride)).take size := by
          congr 1
          ring_nf

/-- Proof helper: every emitted chunk starts strictly inside the text. -/
theorem chunksFrom_start_lt (text : List Char) (size stride : Nat) :
    ∀ (i start : Nat), i < (chunksFrom text size stride start).length →
      start + i * stride < text.length := by
  intro i
  induction i with
  | zero =>
    intro start h
    have hc : 0 < stride ∧ start < text.length := by
      by_contra hc
      rw [chunksFrom_nil text size stride start hc] at h
      simp at h
    omega
  | succ j ih =>
    intro start h
    have hc : 0 < stride ∧ start < text.length := by
      by_contra hc
      rw [chunksFrom_nil text size stride start hc] at h
      simp at h
    have h3 : j < (chunksFrom text size stride (start + stride)).length := by
      rw [chunksFrom_cons text size stride start hc] at h
      simpa using h
    have := ih (start + stride) h3
    have heq : start + stride + j * stride = start + (j + 1) * stride := by ring
    omega

/-- Proof helper: when the produced list ends, the next stride offset
has reached or passed the end of the text. -/
theorem chunksFrom_length_covers (text : List Char) (size stride : Nat)
    (hs : 0 < stride) :
    ∀ (n start : Nat), text.length - start ≤ n →
      text.length ≤ start + (chunksFrom text size stride start).length * stride := by
  intro n
  induction n with
  | zero =>
    intro start h
    have : ¬ (0 < stride ∧ start < text.length) := by omega
    rw [chunksFrom_nil text size stride start this]
    omega
  | succ m ih =>
    intro start h
    by_cases hlt : start < text.length
    · rw [chunksFrom_cons text size stride start ⟨hs, hlt⟩]
      have := ih (start + stride) (by omega)
      simp only [List.length_cons]
      have hmul : ((chunksFrom text size stride (start + stride)).length + 1) * stride =
          (chunksFrom text size stride (start + stride)).length * stride + stride := by
        ring
      omega
    · rw [chunksFrom_nil text size stride start (by omega)]
      omega

/-- Proof helper: dropping the first `overlap` characters of every
chunk emitted from `start` and concatenating yields the text from
position `start + overlap` on, provided `stride = size - overlap`. -/
theorem chunksFrom_join_drop (text : List Char) (size overlap : Nat)
    (hov : overlap < size) :
    ∀ (n start : Nat), text.length - start ≤ n →
      ((chunksFrom text size (size - overlap) start).map
        (fun d => d.drop overlap)).flatten = text.drop (start + overlap) := by
  intro n
  induction n with
  | zero =>
    intro start h
    rw [chunksFrom_nil text size (size - overlap) start (by omega)]
    rw [List.drop_eq_nil_of_le (by omega)]
    rfl
  | succ m ih =>
    intro start h
    by_cases hlt : start < text.length
    · rw [chunksFrom_cons text size (size - overlap) start ⟨by omega, hlt⟩]
      rw [List.map_cons, List.flatten_cons]
      rw [ih (start + (size - overlap)) (by omega)]
      rw [List.drop_take, List.drop_drop]
      have h2 : start + (size - overlap) + overlap = start + overlap + (size - overlap) := by
        omega
      rw [h2, ← List.drop_drop (size - overlap) (start + overlap) text]
      exact List.take_append_drop (size - overlap) (text.drop (start + overlap))
    · rw [chunksFrom_nil text size (size - overlap) start (by omega)]
      rw [List.drop_eq_nil_of_le (by omega)]
      rfl

/-- Proof helper: reconstruction of the whole chunk run recovers the
text. -/
theorem reconstruct_chunksFrom (text : List Char) (size overlap : Nat)
    (hov : overlap < size) :
    reconstruct overlap (chunksFrom text size (size - overlap) 0) = text := by
  by_cases hlen : 0 < text.length
  · rw [chunksFrom_cons text size (size - overlap) 0 ⟨by omega, hlen⟩]
    simp only [reconstruct, Nat.zero_add]
    rw [chunksFrom_join_drop text size overlap hov text.length (size - overlap) (by omega)]
    have : size - overlap + overlap = size := by omega
    rw [this]
    simp
  · have : text = [] := by
      cases text with
      | nil => rfl
      | cons a l => simp at hlen
    subst this
    rw [chunksFrom_nil _ _ _ _ (by simp)]
    rfl

/-- C1 (the code's actual behavior, contradicting the claim): when
`overlap >= chunk_size`, `chunk_text` performs no validation and its
loop never advances past the start of a non-empty text, so it never
terminates — no matter how much fuel (loop iterations) it is given,
the loop is still running.  The claim that the configuration is
"rejected as an error" is therefore false of the code: there is no
rejection path at all. -/
theorem chunk_text_overlap_ge_size_loops_forever (text : List Char)
    (size overlap : Nat) (hov : size ≤ overlap) (hne : text ≠ []) :
    ∀ fuel : Nat, chunk_text text size overlap fuel = none := by
  intro fuel
  have hlen : 0 < text.length := List.length_pos.mpr hne
  exact chunkTextLoop_stuck text size overlap hov fuel 0 [] (by exact_mod_cast hlen)

/-- Witness: `chunk_text("ab", chunk_size=1, overlap=1)` has not
finished after 1000 loop iterations. -/
theorem chunk_text_overlap_ge_size_loops_forever_witness :
    chunk_text [Char.ofNat 97, Char.ofNat 98] 1 1 1000 = none :=
  chunk_text_overlap_ge_size_loops_forever [Char.ofNat 97, Char.ofNat 98] 1 1
    (by decide) (by decide) 1000

/-- C5 (amended): for `overlap < size`, `chunk_text` terminates (here:
any fuel beyond the text length suffices) and emits windows starting at
successive multiples of `size - overlap`; chunk `i` is
`text[i*(size-overlap) : i*(size-overlap)+size]`, whose length is
`min size (len - i*(size-overlap))` — not necessarily exactly `size`
for non-final chunks; concatenating the chunks while dropping the first
`overlap` characters of every chunk after the first reconstructs the
text; the final chunk has length `len - (k-1)*(size-overlap)` for `k`
the number of chunks, and that length is positive. -/
theorem chunk_text_windows_spec (text : List Char) (size overlap fuel : Nat)
    (hov : overlap < size) (hfuel : text.length < fuel) :
    ∃ cs, chunk_text text size overlap fuel = some cs ∧
      (∀ i (h : i < cs.length),
        cs.get ⟨i, h⟩ = (text.drop (i * (size - overlap))).take size ∧
        (cs.get ⟨i, h⟩).length = min size (text.length - i * (size - overlap)) ∧
        i * (size - overlap) < text.length) ∧
      reconstruct overlap cs = text ∧
      text.length ≤ cs.length * (size - overlap) ∧
      (∀ hne : cs ≠ [],
        (cs.getLast hne).length = text.length - (cs.length - 1) * (size - overlap) ∧
        0 < (cs.getLast hne).length) ∧
      (text ≠ [] → cs ≠ []) := by
  refine ⟨chunksFrom text size (size - overlap) 0, ?_, ?_, ?_, ?_, ?_, ?_⟩
  · have := chunkTextLoop_eq_chunksFrom text size overlap hov fuel 0 [] (by omega)
    simpa [chunk_text] using this
  · intro i h
    have hget := chunksFrom_get text size (size - overlap) i 0 h
    have hpos := chunksFrom_start_lt text size (size - overlap) i 0 h
    rw [Nat.zero_add] at hget hpos
    refine ⟨hget, ?_, hpos⟩
    rw [hget, List.length_take, List.length_drop]
  · exact reconstruct_chunksFrom text size overlap hov
  · have := chunksFrom_length_covers text size (size - overlap) (by omega)
      text.length 0 (by omega)
    omega
  · intro hne
    have hk : 0 < (chunksFrom text size (size - overlap) 0).length :=
      List.length_pos.mpr hne
    have hlast := List.getLast_eq_get (chunksFrom text size (size - overlap) 0) hne
    have hget := chunksFrom_get text size (size - overlap)
      ((chunksFrom text size (size - overlap) 0).length - 1) 0 (by omega)
    have hpos := chunksFrom_start_lt text size (size - overlap)
      ((chunksFrom text size (size - overlap) 0).length - 1) 0 (by omega)
    have hcover := chunksFrom_length_covers text size (size - overlap) (by omega)
      text.length 0 (by omega)
    rw [Nat.zero_add] at hget hpos
    rw [Nat.zero_add] at hcover
    have hmul : (chunksFrom text size (size - overlap) 0).length * (size - overlap) =
        ((chunksFrom text size (size - overlap) 0).length - 1) * (size - overlap) +
          (size - overlap) := by
      obtain ⟨m, hm⟩ : ∃ m, (chunksFrom text size (size - overlap) 0).length = m + 1 :=
        ⟨(chunksFrom text size (size - overlap) 0).length - 1, by omega⟩
      rw [hm]
      simp only [Nat.add_sub_cancel]
      ring
    rw [hlast, hget, List.length_take, List.length_drop]
    constructor
    · rw [min_eq_right (by omega)]
    · rw [min_eq_right (by omega)]
      omega
  · intro hne
    have hlen : 0 < text.length := List.length_pos.mpr hne
    rw [chunksFrom_cons text size (size - overlap) 0 ⟨by omega, hlen⟩]
    exact List.cons_ne_nil _ _

/-- Witness for C5: chunking "abcde" with size 3 and overlap 1
terminates and reconstructs the input. -/
theorem chunk_text_windows_spec_witness :
    ∃ cs, chunk_text (("abcde").toList) 3 1 6 = some cs ∧
      reconstruct 1 cs = ("abcde").toList := by
  obtain ⟨cs, h1, _, h3, _⟩ :=
    chunk_text_windows_spec (("abcde").toList) 3 1 6 (by decide) (by decide)
  exact ⟨cs, h1, h3⟩

/-- Counterexample to C5 as stated: chunking the 10-character text
"0123456789" with size 9 and overlap 8 produces 10 chunks, and the
chunk at index 2 — which is not the last chunk — has length 8, not the
full size 9.  So "every chunk except the last has length exactly S" is
false of the code. -/
theorem chunk_text_middle_chunk_not_full :
    ∃ cs, chunk_text (("0123456789").toList) 9 8 20 = some cs ∧
      ∃ h : 2 < cs.length, 2 ≠ cs.length - 1 ∧ (cs.get ⟨2, h⟩).length ≠ 9 := by
  refine ⟨[("012345678").toList, ("123456789").toList, ("23456789").toList,
    ("3456789").toList, ("456789").toList, ("56789").toList, ("6789").toList,
    ("789").toList, ("89").toList, ("9").toList], ?_, ?_⟩
  · decide
  · exact ⟨by decide, by decide, by decide⟩

/-- Model of the reorder-question correct-position count
(src/backend/main.py:1431): `sum(1 for i, item in enumerate(user_order)
if i < len(correct_order) and item == correct_order[i])`.  Python's
`enumerate` is `List.enumFrom 0`. -/
def reorderCorrectCount (userOrder correctOrder : List (List Char)) : Nat :=
  (List.enumFrom 0 userOrder).countP (fun p =>
    decide (p.1 < correctOrder.length) && (correctOrder[p.1]? == some p.2))

/-- Model of the reorder-question score (src/backend/main.py:1432):
`(correct_count / len(correct_order)) * 100`.  The division of two
machine integers under `float` semantics is modelled in `ℚ`; on the
inputs of interest (small integer counts) the float computation is
exact.  The computation is a pure function of the submitted and
canonical orders: no LLM call occurs in the reorder branch. -/
def reorderScore (userOrder correctOrder : List (List Char)) : ℚ :=
  (reorderCorrectCount userOrder correctOrder : ℚ) / (correctOrder.length : ℚ) * 100

/-- Proof helper: shifting the enumeration start by one and dropping the
head of the canonical order preserves the number of matching
positions. -/
theorem enumFrom_countP_shift (c : List Char) (cs us : List (List Char)) :
    ∀ n : Nat,
      (List.enumFrom (n + 1) us).countP (fun p =>
        decide (p.1 < (c :: cs).length) && ((c :: cs)[p.1]? == some p.2)) =
      (List.enumFrom n us).countP (fun p =>
        decide (p.1 < cs.length) && (cs[p.1]? == some p.2)) := by
  induction us with
  | nil => intro n; rfl
  | cons u us ih =>
    intro n
    rw [List.enumFrom_cons, List.enumFrom_cons, List.countP_cons, List.countP_cons]
    have hp : (decide (n + 1 < (c :: cs).length) && ((c :: cs)[n + 1]? == some u)) =
        (decide (n < cs.length) && (cs[n]? == some u)) := by
      simp [List.getElem?_cons_succ, Nat.succ_lt_succ_iff]
    rw [hp, ih (n + 1)]

/-- Proof helper: the source's guarded enumerate-count equals the count
of matching positions over the truncating zip of the two orders. -/
theorem reorderCorrectCount_eq_zip (userOrder : List (List Char)) :
    ∀ correctOrder, reorderCorrectCount userOrder correctOrder =
      (userOrder.zip correctOrder).countP (fun p => p.1 == p.2) := by
  induction userOrder with
  | nil => intro c; rfl
  | cons u us ih =>
    intro correctOrder
    cases correctOrder with
    | nil =>
      rw [reorderCorrectCount]
      rw [List.countP_eq_zero.mpr (by intro p _; simp)]
      simp [List.zip_nil_right]
    | cons c cs =>
      rw [reorderCorrectCount, List.enumFrom_cons, List.countP_cons]
      rw [enumFrom_countP_shift c cs us 0]
      rw [show ((u :: us).zip (c :: cs)) = (u, c) :: us.zip cs from rfl, List.countP_cons]
      rw [← reorderCorrectCount, ih cs]
      congr 1
      by_cases h : u = c
      · subst h; simp
      · have h1 : (c == u) = false := beq_eq_false_iff_ne.mpr (Ne.symm h)
        have h2 : (u == c) = false := beq_eq_false_iff_ne.mpr h
        simp [h1, h2]

/-- C4: reorder scoring is a pure function of the submitted and
canonical orders (no LLM involvement) computing, for a non-empty
canonical order, (number of positions where the submitted order matches
the canonical order) / (total items) * 100; for canonical [A,B,C,D] and
submitted [B,A,C,D] the score is 50. -/
theorem reorder_score_matches_positions (userOrder correctOrder : List (List Char))
    (_hne : correctOrder ≠ []) :
    reorderScore userOrder correctOrder =
      ((userOrder.zip correctOrder).countP (fun p => p.1 == p.2) : ℚ) /
        (correctOrder.length : ℚ) * 100 ∧
    reorderScore [("B").toList, ("A").toList, ("C").toList, ("D").toList]
      [("A").toList, ("B").toList, ("C").toList, ("D").toList] = 50 := by
  constructor
  · rw [reorderScore, reorderCorrectCount_eq_zip]
  · have hc : reorderCorrectCount
        [("B").toList, ("A").toList, ("C").toList, ("D").toList]
        [("A").toList, ("B").toList, ("C").toList, ("D").toList] = 2 := by decide
    rw [reorderScore, hc]
    norm_num

/-- Witness for C4 at the concrete example from the spec. -/
theorem reorder_score_matches_positions_witness :
    reorderScore [("B").toList, ("A").toList, ("C").toList, ("D").toList]
      [("A").toList, ("B").toList, ("C").toList, ("D").toList] = 50 :=
  (reorder_score_matches_positions [] [("A").toList] (by decide)).2

/-! Structured-output extraction (src/backend/main.py:1286-1297,
1377-1388, 2117-2122).  Special characters are spelled with escape
codes to keep string literals plain. -/

def btick : Char := '\x60'

def lbChar : Char := '\x7b'

def rbChar : Char := '\x7d'

def qtChar : Char := '\x22'

/-- Python whitespace class used by `str.strip()` and the regex `\s`
(ASCII fragment, which is all that occurs here). -/
def pyIsSpace (c : Char) : Bool :=
  c = ' ' || c = '\t' || c = '\n' || c = '\r' || c = '\x0b' || c = '\x0c'

/-- Model of Python `str.strip()`. -/
def pyStrip (s : List Char) : List Char :=
  ((s.dropWhile pyIsSpace).reverse.dropWhile pyIsSpace).reverse

/-- The three-backtick code-fence marker. -/
def fenceChars : List Char := [btick, btick, btick]

/-- Model of `re.sub(r'^```json\s*', '', s)`: if the string starts with
the marker `json` fence, remove it together with the following maximal
whitespace run. -/
def subLeadingFenceJson (s : List Char) : List Char :=
  if (fenceChars ++ ("json").toList).isPrefixOf s then
    (s.drop 7).dropWhile pyIsSpace
  else s

/-- Model of `re.sub(r'^```\s*', '', s)`. -/
def subLeadingFence (s : List Char) : List Char :=
  if fenceChars.isPrefixOf s then (s.drop 3).dropWhile pyIsSpace else s

def dropTrailingWs (s : List Char) : List Char :=
  (s.reverse.dropWhile pyIsSpace).reverse

/-- Model of `re.sub(r'\s*```$', '', s)`: Python's `$` (without
re.MULTILINE) matches at the end of the string or just before a final
newline, so a fence at the very end, or immediately before a final
newline, is removed along with the whitespace run before it. -/
def subTrailingFence (s : List Char) : List Char :=
  if fenceChars.isSuffixOf s then dropTrailingWs (s.take (s.length - 3))
  else if (fenceChars ++ ['\n']).isSuffixOf s then
    dropTrailingWs (s.take (s.length - 4)) ++ ['\n']
  else s

/-- The cleanup sequence applied to an evaluation response before JSON
extraction (src/backend/main.py:1286-1292): strip, remove a leading
```json fence, remove a leading bare fence, remove a trailing fence,
strip again. -/
def evalCleanup (s : List Char) : List Char :=
  pyStrip (subTrailingFence (subLeadingFence (subLeadingFenceJson (pyStrip s))))

/-- Index of the first occurrence of a character. -/
def firstIdx (c : Char) : List Char → Option Nat
  | [] => none
  | x :: xs => if x = c then some 0 else (firstIdx c xs).map (fun i => i + 1)

/-- Index of the last occurrence of a character. -/
def lastIdx (c : Char) (s : List Char) : Option Nat :=
  (firstIdx c s.reverse).map (fun i => s.length - 1 - i)

/-- Model of `re.search(r'\{[\s\S]*\}', s)`: the leftmost-then-greedy
match spans from the first opening brace that has some closing brace
after it, to the last closing brace in the whole string.  Since any
opening brace with a closing brace after it lies at or after the first
opening brace, the match exists exactly when the first opening brace
precedes the last closing brace, and then spans between the two. -/
def braceSpan (s : List Char) : Option (List Char) :=
  match firstIdx lbChar s, lastIdx rbChar s with
  | some i, some j => if i < j then some ((s.take (j + 1)).drop i) else none
  | _, _ => none

/-- Model of lines 1295-1297: keep the regex match if there is one,
otherwise leave the text unchanged. -/
def extract_json_object (s : List Char) : List Char :=
  match braceSpan s with
  | some t => t
  | none => s

/-- The whole extraction pipeline used for theory and coding answer
evaluation in `submit_mock_test`. -/
def theoryEvalExtract (raw : List Char) : List Char :=
  extract_json_object (evalCleanup raw)

/-- Scanner helper for the spec-side definition below: absolute index
just past the brace that closes the object opened at the scan start. -/
def balancedEndFrom : List Char → Nat → Nat → Option Nat
  | [], _, _ => none
  | ch :: rest, idx, depth =>
    if ch = lbChar then balancedEndFrom rest (idx + 1) (depth + 1)
    else if ch = rbChar then
      if depth = 1 then some (idx + 1)
      else balancedEndFrom rest (idx + 1) (depth - 1)
    else balancedEndFrom rest (idx + 1) depth

/-- Definition following the SPEC's words (section 4.6 step 3), for
comparison against the source's regex extraction: locate the first
balanced brace-delimited substring via bracket scanning (depth
counting). -/
def specFirstBalancedObject (s : List Char) : Option (List Char) :=
  match firstIdx lbChar s with
  | none => none
  | some i =>
    match balancedEndFrom (s.drop i) i 0 with
    | some e => some ((s.take e).drop i)
    | none => none

/-- Serialization of the object from the spec's example:
a brace-delimited record with score 80 and feedback "ok". -/
def exampleScoreObj : List Char :=
  [lbChar, qtChar] ++ ("score").toList ++ [qtChar, ':', ' '] ++ ("80").toList ++
    [',', ' ', qtChar] ++ ("feedback").toList ++ [qtChar, ':', ' ', qtChar] ++
    ("ok").toList ++ [qtChar, rbChar]

/-- The spec's example raw model response: commentary, a ```json code
fence, the object, a newline and the closing fence. -/
def exampleEvalRaw : List Char :=
  ("Sure! ").toList ++ fenceChars ++ ("json").toList ++ ['\n'] ++
    exampleScoreObj ++ ['\n'] ++ fenceChars

/-- A response containing two brace-delimited objects with text between
them. -/
def twoObjectsText : List Char :=
  [lbChar] ++ ("a").toList ++ [rbChar, ' '] ++ ("x").toList ++
    [' ', lbChar] ++ ("b").toList ++ [rbChar]

/-- Counterexample to C2 as stated: the source extracts with the greedy
regex from the first opening brace to the LAST closing brace, which is
exactly the naive matching the claim denies.  On a response holding two
objects, bracket scanning (the spec's stated mechanism) yields the
first object alone, while the code's extraction returns the whole
first-brace-to-last-brace span — a different, unparseable string. -/
theorem extraction_not_bracket_scanning :
    specFirstBalancedObject twoObjectsText =
      some ([lbChar] ++ ("a").toList ++ [rbChar]) ∧
    theoryEvalExtract twoObjectsText = twoObjectsText ∧
    theoryEvalExtract twoObjectsText ≠ [lbChar] ++ ("a").toList ++ [rbChar] := by
  exact ⟨by decide, by decide, by decide⟩

/-- C2 (amended): extraction locates the JSON substring with the greedy
regex spanning from the first opening brace to the last closing brace
(after stripping code fences), not by bracket scanning; on the spec's
example response — where the span contains a single object — the
extraction yields exactly the serialized object, and coincides with
what bracket scanning would produce. -/
theorem theory_eval_extract_example :
    theoryEvalExtract exampleEvalRaw = exampleScoreObj ∧
    braceSpan (evalCleanup exampleEvalRaw) = some exampleScoreObj ∧
    specFirstBalancedObject (evalCleanup exampleEvalRaw) = some exampleScoreObj := by
  exact ⟨by decide, by decide, by decide⟩

/-! Structured-response validation and fallback
(src/backend/main.py:1299-1313 and 1390-1406). -/

/-- Parsed JSON values, the possible results of `json.loads`. -/
inductive JValue where
  | obj (fields : List (List Char × JValue))
  | arr (elts : List JValue)
  | str (s : List Char)
  | num (n : Int)
  | bool (b : Bool)
  | null

/-- Python equality of a JSON value against a string key (used by list
membership): only an equal string compares equal. -/
def isStrEqKey (key : List Char) : JValue → Bool
  | .str t => t == key
  | _ => false

/-- Boolean contiguous-substring test, Python's `key in s` on strings. -/
def isSubstring (key : List Char) : List Char → Bool
  | [] => key.isEmpty
  | c :: rest => key.isPrefixOf (c :: rest) || isSubstring key rest

/-- Model of Python's `key in value` as used by
`"score" not in evaluation` (line 1302): key membership for dicts,
element equality for lists, substring for strings; `none` models the
TypeError raised for numbers, booleans and None — an exception the
`except (json.JSONDecodeError, ValueError)` clause would not catch. -/
def pyMem (key : List Char) : JValue → Option Bool
  | .obj fields => some (fields.any (fun f => f.1 == key))
  | .arr elts => some (elts.any (isStrEqKey key))
  | .str t => some (isSubstring key t)
  | .num _ => none
  | .bool _ => none
  | .null => none

def scoreKey : List Char := ("score").toList

def feedbackKey : List Char := ("feedback").toList

/-- Model of the parse-validate-fallback step (lines 1299-1313 and
1390-1406): `parsed` is the outcome of `json.loads` on the extracted
text (`none` = JSONDecodeError, caught); if the required fields `score`
and `feedback` are not both present, a ValueError is raised and caught,
and the whole caller-supplied fallback object is used instead; a
result of `none` here models an uncaught exception escaping the
evaluation step. -/
def evaluateWithFallback (parsed : Option JValue) (fallback : JValue) : Option JValue :=
  match parsed with
  | none => some fallback
  | some v =>
    match pyMem scoreKey v with
    | none => none
    | some hasScore =>
      if hasScore = false then some fallback
      else
        match pyMem feedbackKey v with
        | none => none
        | some hasFb => if hasFb = false then some fallback else some v

/-- The theory-question fallback evaluation (lines 1308-1313). -/
def theoryFallback : JValue := JValue.obj
  [ (scoreKey, JValue.num 50),
    (feedbackKey, JValue.str (("Your answer has been recorded but could not be fully evaluated. Consider providing more detail and covering the key concepts.").toList)),
    (("covered_points").toList, JValue.arr []),
    (("missing_points").toList, JValue.arr []) ]

/-- The coding-question fallback evaluation (lines 1399-1406). -/
def codingFallback : JValue := JValue.obj
  [ (scoreKey, JValue.num 50),
    (("correctness").toList, JValue.str (("Code has syntax errors or incomplete implementation").toList)),
    (("code_quality").toList, JValue.str (("Needs improvement").toList)),
    (("test_results").toList, JValue.arr []),
    (feedbackKey, JValue.str (("The code appears incomplete or has errors. Please review the function signature and ensure proper implementation.").toList)),
    (("suggestions").toList, JValue.arr
      [JValue.str (("Complete the function implementation").toList),
       JValue.str (("Fix any syntax errors").toList),
       JValue.str (("Test with provided test cases").toList)]) ]

/-- Field lookup in a parsed JSON object. -/
def lookupField (key : List Char) : JValue → Option JValue
  | .obj fields => (fields.find? (fun f => f.1 == key)).map (fun f => f.2)
  | _ => none

/-- C3: when the extracted JSON parses to an object lacking the
required field "feedback", the whole caller-supplied fallback object is
substituted (never a partially-filled object), and both grading
fallbacks carry the moderate score 50. -/
theorem evaluation_missing_field_uses_fallback :
    (∀ (fields : List (List Char × JValue)) (fallback : JValue),
      feedbackKey ∉ fields.map Prod.fst →
      evaluateWithFallback (some (JValue.obj fields)) fallback = some fallback) ∧
    lookupField scoreKey theoryFallback = some (JValue.num 50) ∧
    lookupField scoreKey codingFallback = some (JValue.num 50) := by
  refine ⟨?_, rfl, rfl⟩
  intro fields fallback hmiss
  have hfb : fields.any (fun f => f.1 == feedbackKey) = false := by
    rw [List.any_eq_false]
    intro f hf
    have : f.1 ≠ feedbackKey := by
      intro he
      exact hmiss (he ▸ List.mem_map_of_mem Prod.fst hf)
    simpa using this
  have hunfold : evaluateWithFallback (some (JValue.obj fields)) fallback =
      (if (fields.any (fun f => f.1 == scoreKey)) = false then some fallback
       else if (fields.any (fun f => f.1 == feedbackKey)) = false then some fallback
       else some (JValue.obj fields)) := rfl
  rw [hunfold, hfb]
  by_cases hs : (fields.any (fun f => f.1 == scoreKey)) = false
  · rw [if_pos hs]
  · rw [if_neg hs, if_pos rfl]

/-- Witness for C3: a parsed object carrying only a score of 80 (no
feedback field) is replaced by the whole theory fallback. -/
theorem evaluation_missing_field_uses_fallback_witness :
    evaluateWithFallback (some (JValue.obj [(scoreKey, JValue.num 80)]))
      theoryFallback = some theoryFallback :=
  evaluation_missing_field_uses_fallback.1 [(scoreKey, JValue.num 80)]
    theoryFallback (by decide)

/-! Endpoint exception discipline for the quiz endpoints
(src/backend/main.py:804-937 and 939-1038). -/

/-- Python exceptions relevant to the quiz endpoints.  FastAPI's
`HTTPException` subclasses `Exception`, so it is caught by a bare
`except Exception` clause. -/
inductive PyExc where
  | httpExc (status : Nat) (detail : List Char)
  | jsonDecodeErr (msg : List Char)
  | otherErr (msg : List Char)

/-- Model of Python `str(e)`: starlette's `HTTPException.__str__`
renders `f"{status_code}: {detail}"`. -/
def pyStrOfExc : PyExc → List Char
  | .httpExc s d => Nat.toDigits 10 s ++ (": ").toList ++ d
  | .jsonDecodeErr m => m
  | .otherErr m => m

def noDocsDetail : List Char :=
  ("No documents uploaded. Please upload documents first.").toList

def quizNotFoundDetail : List Char := ("Quiz not found").toList

/-- Model of the `generate_quiz` handler's control flow
(src/backend/main.py:804-937): the try-body first checks the live
document count and raises `HTTPException(400, ...)` when it is zero
(line 812-813); `rest` abstracts the outcome of the remainder of the
body.  The handler's own `except json.JSONDecodeError` and
`except Exception` clauses re-raise EVERY escaping exception —
including the 400 — as `HTTPException(500, ...)`; the result is the
`(status, detail)` pair of the response error, or `ok`. -/
def generate_quiz_route {A : Type} (docCount : Nat) (rest : Except PyExc A) :
    Except (Nat × List Char) A :=
  let body : Except PyExc A :=
    if docCount = 0 then Except.error (.httpExc 400 noDocsDetail) else rest
  match body with
  | .ok a => .ok a
  | .error (.jsonDecodeErr m) =>
    .error (500, ("Failed to parse quiz questions: ").toList ++ m)
  | .error e => .error (500, pyStrOfExc e)

/-- Model of the `submit_quiz` handler's control flow
(src/backend/main.py:939-1038): the try-body raises
`HTTPException(404, "Quiz not found")` when the quiz id is absent from
the in-process store (lines 943-944), and the handler's single
`except Exception` clause re-raises every escaping exception as
`HTTPException(500, str(e))`. -/
def submit_quiz_route {A : Type} (storeIds : List (List Char))
    (quizId : List Char) (rest : Except PyExc A) :
    Except (Nat × List Char) A :=
  let body : Except PyExc A :=
    if storeIds.contains quizId = false then
      Except.error (.httpExc 404 quizNotFoundDetail)
    else rest
  match body with
  | .ok a => .ok a
  | .error e => .error (500, pyStrOfExc e)

/-- C6 (the code's actual behavior, contradicting the claim): the
missing-precondition conditions ARE raised as 400/404 with the distinct
messages, but both handlers' catch-all `except Exception` clauses
intercept the `HTTPException` and re-raise it as a generic 500 internal
error (with the original status folded into the detail text), so the
client receives status 500, not 400 or 404. -/
theorem quiz_missing_precondition_becomes_500 :
    generate_quiz_route (A := Unit) 0 (Except.ok ()) =
      Except.error (500, pyStrOfExc (.httpExc 400 noDocsDetail)) ∧
    submit_quiz_route (A := Unit) [] (("missing-id").toList) (Except.ok ()) =
      Except.error (500, pyStrOfExc (.httpExc 404 quizNotFoundDetail)) ∧
    (500 : Nat) ≠ 400 ∧ (500 : Nat) ≠ 404 :=
  ⟨rfl, rfl, by decide, by decide⟩

/-! Chunk-to-vector indexing during PDF upload
(src/backend/main.py:596-617, with `get_embedding` at 330-348). -/

/-- Metadata attached to one vector record (lines 604-610). -/
structure VecMeta where
  doc_id : List Char
  notebook_id : List Char
  filename : List Char
  chunk_index : Nat
  text : List Char
deriving DecidableEq

/-- One vector record as upserted to the index (lines 601-611); the
vector payload type `V` is abstract (produced by the embedding
capability). -/
structure VecRecord (V : Type) where
  id : List Char
  values : V
  metadata : VecMeta

def natChars (n : Nat) : List Char := Nat.toDigits 10 n

/-- The vector key `f"{doc_id}_{i}"` (line 602). -/
def vecId (docId : List Char) (i : Nat) : List Char :=
  docId ++ '_' :: natChars i

/-- Model of the `for i, chunk in enumerate(chunks)` loop of
`upload_pdfs` (lines 597-611): `get_embedding` is the embedding
capability returning `none` on failure (line 348), in which case the
chunk's vector is silently skipped (`if embedding:`); `n` is the index
of the first chunk in `chunks`. -/
def buildVectors {V : Type} (docId nbId fname : List Char)
    (embed : List Char → Option V) : List (List Char) → Nat → List (VecRecord V)
  | [], _ => []
  | c :: cs, i =>
    (match embed c with
     | some e => [⟨vecId docId i, e, ⟨docId, nbId, fname, i, c⟩⟩]
     | none => []) ++ buildVectors docId nbId fname embed cs (i + 1)

theorem buildVectors_idx_ge {V : Type} (docId nbId fname : List Char)
    (embed : List Char → Option V) :
    ∀ (cs : List (List Char)) (n : Nat) (r : VecRecord V),
      r ∈ buildVectors docId nbId fname embed cs n →
      n ≤ r.metadata.chunk_index := by
  intro cs
  induction cs with
  | nil => intro n r h; simp [buildVectors] at h
  | cons c cs ih =>
    intro n r h
    rw [buildVectors] at h
    rcases List.mem_append.mp h with h1 | h2
    · cases he : embed c with
      | some e =>
        rw [he] at h1
        rcases List.mem_singleton.mp h1 with rfl
        exact le_refl n
      | none =>
        rw [he] at h1
        simp at h1
    · have := ih (n + 1) r h2
      omega

theorem buildVectors_filter {V : Type} (docId nbId fname : List Char)
    (embed : List Char → Option V) :
    ∀ (cs : List (List Char)) (n i : Nat) (h : i < cs.length),
      (buildVectors docId nbId fname embed cs n).filter
        (fun r => r.metadata.chunk_index == n + i) =
      (match embed (cs.get ⟨i, h⟩) with
       | some e => [⟨vecId docId (n + i), e, ⟨docId, nbId, fname, n + i, cs.get ⟨i, h⟩⟩⟩]
       | none => []) := by
  intro cs
  induction cs with
  | nil => intro n i h; simp at h
  | cons c cs ih =>
    intro n i h
    cases i with
    | zero =>
      rw [buildVectors, List.filter_append]
      have hrest : (buildVectors docId nbId fname embed cs (n + 1)).filter
          (fun r => r.metadata.chunk_index == n + 0) = [] := by
        rw [List.filter_eq_nil_iff]
        intro r hr
        have := buildVectors_idx_ge docId nbId fname embed cs (n + 1) r hr
        simp only [Nat.add_zero]
        intro hb
        have : r.metadata.chunk_index = n := by simpa using hb
        omega
      rw [hrest]
      cases he : embed c with
      | some e => simp [he]
      | none => simp [he]
    | succ j =>
      rw [buildVectors, List.filter_append]
      have hhead : (((match embed c with
          | some e => [⟨vecId docId n, e, ⟨docId, nbId, fname, n, c⟩⟩]
          | none => []) : List (VecRecord V)).filter
            (fun r => r.metadata.chunk_index == n + (j + 1))) = [] := by
        cases he : embed c with
        | some e =>
          simp only [List.filter_cons, List.filter_nil]
          have : (n == n + (j + 1)) = false := by
            simp only [beq_eq_false_iff_ne]
            omega
          simp [this]
        | none => rfl
      rw [hhead, List.nil_append]
      have hidx : n + (j + 1) = (n + 1) + j := by omega
      rw [hidx]
      exact ih (n + 1) j (by simpa using h)

/-- C7 (amended): after upload, every chunk whose embedding SUCCEEDED
has exactly one vector record, keyed `{doc_id}_{i}` and carrying that
chunk's own document id, chunk index and text in its metadata; a chunk
whose embedding failed has no vector record at all (the loop skips
it). -/
theorem upload_vector_per_embedded_chunk {V : Type} (docId nbId fname : List Char)
    (embed : List Char → Option V) (chunks : List (List Char))
    (i : Nat) (h : i < chunks.length) :
    (∀ v, embed (chunks.get ⟨i, h⟩) = some v →
      (buildVectors docId nbId fname embed chunks 0).filter
        (fun r => r.metadata.chunk_index == i) =
        [⟨vecId docId i, v, ⟨docId, nbId, fname, i, chunks.get ⟨i, h⟩⟩⟩]) ∧
    (embed (chunks.get ⟨i, h⟩) = none →
      (buildVectors docId nbId fname embed chunks 0).filter
        (fun r => r.metadata.chunk_index == i) = []) := by
  constructor
  · intro v hv
    have hf := buildVectors_filter docId nbId fname embed chunks 0 i h
    rw [hv] at hf
    simpa [Nat.zero_add] using hf
  · intro hv
    have hf := buildVectors_filter docId nbId fname embed chunks 0 i h
    rw [hv] at hf
    simpa [Nat.zero_add] using hf

/-- Witness for C7 (amended) at a one-chunk document whose embedding
succeeds. -/
theorem upload_vector_per_embedded_chunk_witness :
    (buildVectors (V := Nat) (("d").toList) (("n").toList) (("f").toList)
      (fun _ => some 7) [("a").toList] 0).filter
        (fun r => r.metadata.chunk_index == 0) =
      [⟨vecId (("d").toList) 0, 7,
        ⟨("d").toList, ("n").toList, ("f").toList, 0, ("a").toList⟩⟩] :=
  (upload_vector_per_embedded_chunk (("d").toList) (("n").toList) (("f").toList)
    (fun _ => some 7) [("a").toList] 0 (by decide)).1 7 rfl

/-- Counterexample to C7 as stated: with an embedding capability that
fails (returns `None`, line 348), the upload still succeeds, the
document record persists its one chunk, but NO vector record is
produced for it — so "every persisted chunk has exactly one
corresponding vector record" is false. -/
theorem upload_vector_missing_on_embed_failure :
    buildVectors (V := Nat) (("d").toList) (("n").toList) (("f").toList)
      (fun _ => none) [("a").toList] 0 = [] ∧
    [("a").toList].length = 1 :=
  ⟨rfl, rfl⟩

/-! Diverse sampling for quiz generation
(src/backend/main.py:820-851). -/

/-- One retrieval match, projected to the fields the quiz loop keeps
(lines 839-842). -/
structure MatchChunk where
  text : List Char
  filename : List Char
deriving DecidableEq

/-- Model of the inner `for match in results.matches` loop (lines
837-842): append a match if and only if its text is not already among
the collected texts. -/
def addMatches : List MatchChunk → List MatchChunk → List MatchChunk
  | acc, [] => acc
  | acc, m :: ms =>
    if (acc.map (fun c => c.text)).contains m.text then addMatches acc ms
    else addMatches (acc ++ [m]) ms

/-- Model of the whole query loop (lines 825-842): each element of
`results` is the match list returned by one vector-index query; the
loop folds them into the deduplicated chunk pool. -/
def collectDiverseChunks (results : List (List MatchChunk)) : List MatchChunk :=
  results.foldl addMatches []

/-- The number of retrieval queries issued (line 823):
`min(request.num_questions * 2, 10)`. -/
def quizNumQueries (numQuestions : Nat) : Nat := min (numQuestions * 2) 10

/-- The `top_k` passed to each vector-index query (line 832). -/
def quizTopK : Nat := 3

theorem addMatches_sublist :
    ∀ (ms acc : List MatchChunk), List.Sublist (addMatches acc ms) (acc ++ ms) := by
  intro ms
  induction ms with
  | nil => intro acc; simpa [addMatches] using List.Sublist.refl acc
  | cons m ms ih =>
    intro acc
    rw [addMatches]
    by_cases hc : ((acc.map (fun c => c.text)).contains m.text) = true
    · rw [if_pos hc]
      exact (ih acc).trans ((List.sublist_cons_self m ms).append_left acc)
    · rw [if_neg hc]
      have := ih (acc ++ [m])
      rwa [List.append_assoc, List.singleton_append] at this

theorem addMatches_nodup :
    ∀ (ms acc : List MatchChunk),
      (acc.map (fun c => c.text)).Nodup →
      ((addMatches acc ms).map (fun c => c.text)).Nodup := by
  intro ms
  induction ms with
  | nil => intro acc h; simpa [addMatches] using h
  | cons m ms ih =>
    intro acc h
    rw [addMatches]
    by_cases hc : ((acc.map (fun c => c.text)).contains m.text) = true
    · rw [if_pos hc]
      exact ih acc h
    · rw [if_neg hc]
      refine ih (acc ++ [m]) ?_
      have hnotmem : m.text ∉ acc.map (fun c => c.text) := by
        intro hmem
        exact hc (List.elem_iff.mpr hmem)
      rw [List.map_append, List.nodup_append]
      refine ⟨h, by simp, ?_⟩
      intro x hx hx2
      have : x = m.text := by simpa using hx2
      subst this
      exact hnotmem hx

theorem addMatches_mem_of_mem :
    ∀ (ms acc : List MatchChunk) (x : MatchChunk),
      x ∈ acc → x ∈ addMatches acc ms := by
  intro ms
  induction ms with
  | nil => intro acc x h; simpa [addMatches] using h
  | cons m ms ih =>
    intro acc x h
    rw [addMatches]
    by_cases hc : ((acc.map (fun c => c.text)).contains m.text) = true
    · rw [if_pos hc]
      exact ih acc x h
    · rw [if_neg hc]
      exact ih (acc ++ [m]) x (List.mem_append_left _ h)

theorem addMatches_text_of_mem
    (ms acc : List MatchChunk) (t : List Char)
    (h : t ∈ acc.map (fun c => c.text)) :
    t ∈ (addMatches acc ms).map (fun c => c.text) := by
  rcases List.mem_map.mp h with ⟨c, hc, rfl⟩
  exact List.mem_map_of_mem _ (addMatches_mem_of_mem ms acc c hc)

theorem addMatches_text_mem :
    ∀ (ms acc : List MatchChunk) (m : MatchChunk), m ∈ ms →
      m.text ∈ (addMatches acc ms).map (fun c => c.text) := by
  intro ms
  induction ms with
  | nil => intro acc m h; simp at h
  | cons n ms ih =>
    intro acc m hm
    rw [addMatches]
    rcases List.mem_cons.mp hm with rfl | hms
    · by_cases hc : ((acc.map (fun c => c.text)).contains m.text) = true
      · rw [if_pos hc]
        exact addMatches_text_of_mem ms acc m.text (List.elem_iff.mp hc)
      · rw [if_neg hc]
        refine addMatches_text_of_mem ms (acc ++ [m]) m.text ?_
        rw [List.map_append]
        exact List.mem_append_right _ (by simp)
    · by_cases hc : ((acc.map (fun c => c.text)).contains n.text) = true
      · rw [if_pos hc]
        exact ih acc m hms
      · rw [if_neg hc]
        exact ih (acc ++ [n]) m hms

theorem collect_sublist :
    ∀ (rs : List (List MatchChunk)) (acc : List MatchChunk),
      List.Sublist (List.foldl addMatches acc rs) (acc ++ rs.flatten) := by
  intro rs
  induction rs with
  | nil => intro acc; simpa using List.Sublist.refl acc
  | cons r rs ih =>
    intro acc
    rw [List.foldl_cons, List.flatten_cons, ← List.append_assoc]
    exact (ih (addMatches acc r)).trans ((addMatches_sublist r acc).append_right rs.flatten)

theorem collect_nodup :
    ∀ (rs : List (List MatchChunk)) (acc : List MatchChunk),
      (acc.map (fun c => c.text)).Nodup →
      ((List.foldl addMatches acc rs).map (fun c => c.text)).Nodup := by
  intro rs
  induction rs with
  | nil => intro acc h; simpa using h
  | cons r rs ih =>
    intro acc h
    rw [List.foldl_cons]
    exact ih (addMatches acc r) (addMatches_nodup r acc h)

theorem collect_text_of_mem :
    ∀ (rs : List (List MatchChunk)) (acc : List MatchChunk) (t : List Char),
      t ∈ acc.map (fun c => c.text) →
      t ∈ (List.foldl addMatches acc rs).map (fun c => c.text) := by
  intro rs
  induction rs with
  | nil => intro acc t h; simpa using h
  | cons r rs ih =>
    intro acc t h
    rw [List.foldl_cons]
    exact ih (addMatches acc r) t (addMatches_text_of_mem r acc t h)

theorem collect_coverage :
    ∀ (rs : List (List MatchChunk)) (acc : List MatchChunk) (m : MatchChunk),
      m ∈ rs.flatten →
      m.text ∈ (List.foldl addMatches acc rs).map (fun c => c.text) := by
  intro rs
  induction rs with
  | nil => intro acc m h; simp at h
  | cons r rs ih =>
    intro acc m hm
    rw [List.foldl_cons]
    rw [List.flatten_cons] at hm
    rcases List.mem_append.mp hm with h1 | h2
    · exact collect_text_of_mem rs (addMatches acc r) m.text
        (addMatches_text_mem r acc m h1)
    · exact ih (addMatches acc r) m h2

/-- C8: quiz generation issues exactly `min(num_questions*2, 10)`
retrieval queries with `top_k = 3`; the pooled matches are deduplicated
by exact text equality preserving first-seen order (the pool is a
subsequence of the concatenated query results, its texts are free of
duplicates, and every retrieved text is represented); the collection is
a bounded fold, so it terminates whatever the query results; and when
every query's matches carry one of only two distinct texts — a corpus
with 2 unique chunks — the deduplicated pool has at most 2 entries. -/
theorem diverse_sampling_spec :
    (∀ t : Nat, quizNumQueries t = min (2 * t) 10) ∧
    quizTopK = 3 ∧
    (∀ results : List (List MatchChunk),
      List.Sublist (collectDiverseChunks results) results.flatten ∧
      ((collectDiverseChunks results).map (fun c => c.text)).Nodup ∧
      (∀ m ∈ results.flatten,
        m.text ∈ (collectDiverseChunks results).map (fun c => c.text))) ∧
    (∀ (results : List (List MatchChunk)) (t1 t2 : List Char),
      (∀ m ∈ results.flatten, m.text = t1 ∨ m.text = t2) →
      (collectDiverseChunks results).length ≤ 2) := by
  refine ⟨?_, rfl, ?_, ?_⟩
  · intro t
    rw [quizNumQueries, Nat.mul_comm]
  · intro rs
    refine ⟨?_, collect_nodup rs [] (by simp), fun m hm => collect_coverage rs [] m hm⟩
    simpa using collect_sublist rs []
  · intro rs t1 t2 hpool
    have hnd : ((collectDiverseChunks rs).map (fun c => c.text)).Nodup :=
      collect_nodup rs [] (by simp)
    have hsub : (collectDiverseChunks rs).map (fun c => c.text) ⊆ [t1, t2] := by
      intro t ht
      rcases List.mem_map.mp ht with ⟨c, hc, rfl⟩
      have hcf : c ∈ rs.flatten := by
        have hs := collect_sublist rs []
        rw [List.nil_append] at hs
        exact hs.subset hc
      rcases hpool c hcf with h | h <;> simp [h]
    have hlen := (hnd.subperm hsub).length_le
    simpa using hlen

/-- Witness for C8: three queries over a two-chunk corpus, two of them
returning the same chunk, pool at most 2 entries. -/
theorem diverse_sampling_spec_witness :
    (collectDiverseChunks [[⟨("x").toList, ("f").toList⟩],
      [⟨("x").toList, ("f").toList⟩],
      [⟨("y").toList, ("g").toList⟩]]).length ≤ 2 :=
  diverse_sampling_spec.2.2.2
    [[⟨("x").toList, ("f").toList⟩], [⟨("x").toList, ("f").toList⟩],
      [⟨("y").toList, ("g").toList⟩]]
    (("x").toList) (("y").toList) (by decide)

/-! Lazy chunk rehydration (src/backend/main.py:351-404). -/

/-- The fields of a MongoDB document record that
`ensure_document_chunks` reads; each is optional (`doc.get`). -/
structure DocRecord where
  chunks : Option (List (List Char))
  file_path : Option (List Char)
  notebook_id : Option (List Char)
  doc_id : Option (List Char)

/-- The `UPLOADS_DIR` constant (src/backend/main.py:71). -/
def uploadsDir : List Char := ("uploads").toList

/-- The convention path `UPLOADS_DIR / notebook_id / f"{doc_id}.pdf"`
(line 375). -/
def derivedPdfPath (nb docId : List Char) : List Char :=
  uploadsDir ++ '/' :: nb ++ '/' :: docId ++ (".pdf").toList

/-- Path resolution of lines 370-377: prefer the explicit `file_path`
field; otherwise derive the convention path when both `notebook_id`
and `doc_id` are present; otherwise no path. -/
def resolvePdfPath (doc : DocRecord) : Option (List Char) :=
  match doc.file_path with
  | some p => some p
  | none =>
    match doc.notebook_id, doc.doc_id with
    | some nb, some d => some (derivedPdfPath nb d)
    | _, _ => none

/-- Model of `ensure_document_chunks` (src/backend/main.py:351-404).
`fileExists` models `Path.exists`; `extractText` models opening the
PDF and `extract_text_from_pdf`, returning `none` when either raises
(the `except` clause of lines 386-388 catches everything and returns
`[]`).  Re-chunking calls `chunk_text(text)` with the defaults
(1000, 200); fuel `text.length + 1` always suffices there since the
stride is 800.  The best-effort persistence of lines 395-402 does not
affect the returned value and is elided. -/
def ensure_document_chunks (doc : DocRecord)
    (fileExists : List Char → Bool)
    (extractText : List Char → Option (List Char)) : List (List Char) :=
  let cached := doc.chunks.getD []
  if cached ≠ [] then cached
  else
    match resolvePdfPath doc with
    | none => []
    | some p =>
      if fileExists p then
        match extractText p with
        | none => []
        | some text =>
          let cs := (chunk_text text 1000 200 (text.length + 1)).getD []
          if cs = [] then [] else cs
      else []

/-- C9: for a document record with no cached chunks whose binary path
cannot be resolved, or whose file does not exist, or whose text
extraction fails, `ensure_document_chunks` returns the empty sequence;
the model is a total function — every failure is absorbed into the
empty result rather than an exception, mirroring the source's
catch-all handlers. -/
theorem ensure_chunks_failure_empty (doc : DocRecord)
    (fileExists : List Char → Bool)
    (extractText : List Char → Option (List Char))
    (hnochunks : doc.chunks.getD [] = [])
    (hfail : match resolvePdfPath doc with
      | none => True
      | some p => fileExists p = false ∨ extractText p = none) :
    ensure_document_chunks doc fileExists extractText = [] := by
  cases hp : resolvePdfPath doc with
  | none =>
    simp [ensure_document_chunks, hnochunks, hp]
  | some p =>
    have hfail2 : fileExists p = false ∨ extractText p = none := by
      have h := hfail
      rw [hp] at h
      exact h
    rcases hfail2 with h | h
    · simp [ensure_document_chunks, hnochunks, hp, h]
    · simp [ensure_document_chunks, hnochunks, hp, h]

/-- Witness for C9: a record with no cached chunks, no stored path and
no identifiers to derive one from. -/
theorem ensure_chunks_failure_empty_witness :
    ensure_document_chunks ⟨none, none, none, none⟩
      (fun _ => false) (fun _ => none) = [] :=
  ensure_chunks_failure_empty ⟨none, none, none, none⟩
    (fun _ => false) (fun _ => none) rfl trivial

/-! Notebook document counts (src/backend/main.py:463-491). -/

/-- A stored notebook record; `document_count` is the persistent
counter field that `upload_pdfs` increments (line 627-630) and delete
decrements — it may hold anything. -/
structure NotebookRec where
  nbId : List Char
  name : List Char
  color : Option (List Char)
  icon : Option (List Char)
  created_at : List Char
  document_count : Option Int

/-- The single field of a Document record that the count-by-filter
query `count_documents({"notebook_id": ...})` inspects. -/
structure DocRow where
  notebook_id : List Char

/-- The notebook shape returned to the client. -/
structure NotebookResp where
  id : List Char
  name : List Char
  color : List Char
  icon : List Char
  created_at : List Char
  document_count : Int

/-- Model of `documents_collection.count_documents({"notebook_id": nbId})`
(lines 470 and 486): the number of document records whose
`notebook_id` equals the filter value. -/
def countDocumentsByNotebook (docs : List DocRow) (nbId : List Char) : Nat :=
  (docs.filter (fun d => d.notebook_id == nbId)).length

/-- Model of `notebook_helper` (src/backend/main.py:407-426). -/
def notebook_helper (nb : NotebookRec) : NotebookResp :=
  ⟨nb.nbId, nb.name, nb.color.getD (("#2f5bea").toList),
    nb.icon.getD (("📚").toList), nb.created_at, nb.document_count.getD 0⟩

/-- Model of `get_notebooks` (src/backend/main.py:463-476): for each
stored notebook (in store iteration order), overwrite the
`document_count` field with the live count-by-filter before shaping
the response. -/
def get_notebooks (notebooks : List NotebookRec) (docs : List DocRow) :
    List NotebookResp :=
  notebooks.map (fun nb =>
    notebook_helper { nb with document_count := some (Int.ofNat (countDocumentsByNotebook docs nb.nbId)) })

/-- Model of `get_notebook` (src/backend/main.py:478-491): look the
notebook up by id, overwrite `document_count` with the live count, and
shape the response; `none` models the not-found branch. -/
def get_notebook (notebooks : List NotebookRec) (docs : List DocRow)
    (nbId : List Char) : Option NotebookResp :=
  match notebooks.find? (fun nb => nb.nbId == nbId) with
  | none => none
  | some nb => some (notebook_helper { nb with document_count := some (Int.ofNat (countDocumentsByNotebook docs nbId)) })

/-- C10: whatever value the stored `document_count` counter holds,
both read paths return a `document_count` equal to the live
count-by-filter of Document records with the notebook's id at read
time. -/
theorem notebooks_live_document_count (notebooks : List NotebookRec)
    (docs : List DocRow) :
    (∀ i : Nat, ((get_notebooks notebooks docs)[i]?).map
        (fun r => r.document_count) =
      (notebooks[i]?).map
        (fun nb => ((countDocumentsByNotebook docs nb.nbId : Nat) : Int))) ∧
    (∀ (nbId : List Char) (resp : NotebookResp),
      get_notebook notebooks docs nbId = some resp →
      resp.document_count = (countDocumentsByNotebook docs nbId : Int)) := by
  constructor
  · intro i
    rw [get_notebooks, List.getElem?_map]
    cases hnb : notebooks[i]? with
    | none => rfl
    | some nb => simp [notebook_helper]
  · intro nbId resp h
    rw [get_notebook] at h
    cases hf : notebooks.find? (fun nb => nb.nbId == nbId) with
    | none =>
      rw [hf] at h
      simp at h
    | some nb =>
      rw [hf] at h
      have h2 := Option.some.inj h
      rw [← h2]
      simp [notebook_helper]

def nbExample : NotebookRec :=
  ⟨("n1").toList, ("nb").toList, none, none, ("t").toList, some 99⟩

/-- Witness for C10: a notebook whose stored counter says 99 but which
owns zero document records reads back with document_count 0. -/
theorem notebooks_live_document_count_witness :
    ∃ resp, get_notebook [nbExample] [] (("n1").toList) = some resp ∧
      resp.document_count = 0 := by
  refine ⟨_, rfl, ?_⟩
  have h := (notebooks_live_document_count [nbExample] []).2 (("n1").toList) _ rfl
  simpa using h

end Prism

